import Mathlib

/-!
Verification of the HFE heat-exchanger firmware core.

Shallow embedding of the firmware sources:
* the 10-channel main firmware (sensor sanitization `safeReadCelsius`, the
  hysteresis control loop, the Modbus-RTU field-bus master `modbusCRC` /
  `vfdReadM09toM12` / `pollVfd`, the pump PWM command `setDuty` /
  `setPumpCommandPct`, and the serial command handler `handleCommand`);
* the two-channel minimum-hold variant (`mean2`, `read_tc` and its valve loop).

IEEE-754 float values are embedded as `FVal`: a finite value carries an exact
rational, and NaN / +inf / -inf are explicit constructors, so that the
firmware's `isfinite` / `isnan` guards and NaN-propagation are modelled
faithfully.  Machine integers are `Nat`; `uint8_t` array cells carry explicit
`< 256` hypotheses, `uint16_t` CRC state is proved `< 2^16`, and the 32-bit
unsigned subtraction `millis() - t0` is `usub32`.
-/

namespace Hfe

/-- Embedded IEEE-754 value: an exact finite rational, or one of the
non-finite values NaN, +infinity, -infinity. -/
inductive FVal where
  | fin (q : ℚ)
  | nan
  | pinf
  | ninf
deriving DecidableEq

/-- The C `isfinite` classifier on an embedded float. -/
def FVal.isfinite : FVal → Bool
  | .fin _ => true
  | _ => false

/-- The C `isnan` classifier on an embedded float. -/
def FVal.isnan : FVal → Bool
  | .nan => true
  | _ => false

/-- The finite payload of an embedded float, when there is one. -/
def FVal.toFinite : FVal → Option ℚ
  | .fin q => some q
  | _ => none

-- ── SensorArray: safeReadCelsius (10-channel firmware) ────────────────────

/-- One raw per-channel observation: whether the device object exists
(`tc[i] != nullptr`), the raw `readThermocoupleTemperature()` result, and the
`readFault()` register value (a `uint8_t`). -/
structure RawChannel where
  present : Bool
  temp : FVal
  fault : Nat
deriving DecidableEq

/-- `safeReadCelsius`: returns NaN if the device is missing, a fault is
reported, the raw value is non-finite, or the value is outside
[-200 C, 1370 C]; otherwise the raw temperature. -/
def safeReadCelsius (c : RawChannel) : FVal :=
  if c.present = false then .nan
  else if c.fault ≠ 0 then .nan
  else match c.temp with
    | .fin q => if q < -200 ∨ q > 1370 then .nan else .fin q
    | _ => .nan

/-- The reading is a finite value strictly outside the plausible range. -/
def outOfRange (v : FVal) : Prop :=
  ∃ q, v = FVal.fin q ∧ (q < -200 ∨ q > 1370)

/-- How `emitTelemetry` renders one `temps[i]` cell: a number when finite,
the JSON `null` marker (here `none`) otherwise. -/
def renderTemp (v : FVal) : Option ℚ :=
  match v with
  | .fin q => some q
  | _ => none

-- ── ControlLoop: the AUTO/override valve state machine ────────────────────

/-- Valve state, as in the firmware enum. -/
inductive ValveState where
  | CLOSED
  | OPEN
deriving DecidableEq

/-- Override mode, as in the firmware enum. -/
inductive OverrideMode where
  | AUTO
  | FORCE_OPEN
  | FORCE_CLOSE
deriving DecidableEq

/-- Firmware constant `SETPOINT` (25.0 C) of the 10-channel variant. -/
def SETPOINT : ℚ := 25

/-- Firmware constant `HYSTERESIS` (0.5 C). -/
def HYSTERESIS : ℚ := 1/2

/-- The finite (valid) readings of a sampling tick, in channel order: the
`isfinite(temps_out[i])` filter of the control loop. -/
def validOf (temps : List FVal) : List ℚ :=
  temps.filterMap FVal.toFinite

/-- The control variable: mean of the valid channels (`sum / k` with `k > 0`),
undefined when no channel is valid. -/
def controlMean (temps : List FVal) : Option ℚ :=
  let valid := validOf temps
  if valid.length > 0 then some (valid.sum / (valid.length : ℚ)) else none

/-- One control evaluation of `loop()` (the valve-decision block): in AUTO,
average the valid channels and apply the hysteresis rule, or force CLOSED when
no channel is valid; in the override modes drive the commanded state. -/
def controlStep (sp hy : ℚ) (mode : OverrideMode) (valve : ValveState)
    (temps : List FVal) : ValveState :=
  match mode with
  | .AUTO =>
    match controlMean temps with
    | some t_ctrl =>
      if valve = .CLOSED ∧ t_ctrl > sp + hy then .OPEN
      else if valve = .OPEN ∧ t_ctrl < sp - hy then .CLOSED
      else valve
    | none => .CLOSED
  | .FORCE_OPEN => .OPEN
  | .FORCE_CLOSE => .CLOSED

-- ── Theorems: C1, C2, C3 ──────────────────────────────────────────────────

/-- C1: in AUTO mode, on every sampling tick with zero valid channels the
control step drives the valve to CLOSED regardless of its current state, and
along any run of such ticks the valve is CLOSED at every tick. -/
theorem auto_no_valid_channel_closes_valve
    (sp hy : ℚ) (valve : ValveState) (temps : List FVal)
    (v0 : ValveState) (trace : List (List FVal)) :
    (validOf temps = [] → controlStep sp hy .AUTO valve temps = .CLOSED) ∧
    ((∀ r ∈ trace, validOf r = []) →
      ∀ s ∈ (trace.scanl (fun v r => controlStep sp hy .AUTO v r) v0).tail,
        s = .CLOSED) := by
  have hstep : ∀ (v : ValveState) (r : List FVal), validOf r = [] →
      controlStep sp hy .AUTO v r = .CLOSED := by
    intro v r hr
    simp [controlStep, controlMean, hr]
  have haux : ∀ (l : List (List FVal)) (c : ValveState),
      (∀ r ∈ l, validOf r = []) → c = .CLOSED →
      ∀ s ∈ l.scanl (fun v r => controlStep sp hy .AUTO v r) c, s = .CLOSED := by
    intro l
    induction l with
    | nil =>
      intro c _ hc s hs
      simp only [List.scanl_nil, List.mem_singleton] at hs
      rw [hs, hc]
    | cons r rest ih =>
      intro c hall hc s hs
      simp only [List.scanl_cons, List.singleton_append, List.mem_cons] at hs
      refine hs.elim (fun h => ?_) (fun h => ?_)
      · rw [h, hc]
      · exact ih _ (fun x hx => hall x (by simp [hx]))
          (hstep c r (hall r (by simp))) s h
  refine ⟨hstep valve temps, ?_⟩
  intro hall
  cases trace with
  | nil => simp
  | cons r rest =>
    intro s hs
    simp only [List.scanl_cons, List.singleton_append, List.tail_cons] at hs
    exact haux rest _ (fun x hx => hall x (by simp [hx]))
      (hstep v0 r (hall r (by simp))) s hs

/-- C1 witness: a concrete all-invalid tick from OPEN, and a two-tick
all-invalid run. -/
theorem auto_no_valid_channel_closes_valve_witness :
    controlStep SETPOINT HYSTERESIS .AUTO .OPEN [FVal.nan, FVal.nan] = .CLOSED ∧
    ∀ s ∈ (([[FVal.nan], []] : List (List FVal)).scanl
        (fun v r => controlStep SETPOINT HYSTERESIS .AUTO v r) .OPEN).tail,
      s = .CLOSED := by
  refine ⟨(auto_no_valid_channel_closes_valve SETPOINT HYSTERESIS .OPEN
      [FVal.nan, FVal.nan] .OPEN [[FVal.nan], []]).1 (by decide), ?_⟩
  exact (auto_no_valid_channel_closes_valve SETPOINT HYSTERESIS .OPEN
      [FVal.nan, FVal.nan] .OPEN [[FVal.nan], []]).2 (by decide)

/-- C2: in AUTO mode with a valid control mean `t`, the valve goes
CLOSED to OPEN iff `t > sp + hy`, OPEN to CLOSED iff `t < sp - hy`, and for
any `t` inside the dead-band `[sp - hy, sp + hy]` the state is unchanged. -/
theorem auto_hysteresis_transitions
    (sp hy : ℚ) (temps : List FVal) (t : ℚ) (valve : ValveState)
    (hmean : controlMean temps = some t) :
    (controlStep sp hy .AUTO .CLOSED temps = .OPEN ↔ t > sp + hy) ∧
    (controlStep sp hy .AUTO .OPEN temps = .CLOSED ↔ t < sp - hy) ∧
    (sp - hy ≤ t → t ≤ sp + hy → controlStep sp hy .AUTO valve temps = valve) := by
  refine ⟨?_, ?_, ?_⟩
  · simp only [controlStep, hmean]
    constructor
    · intro h
      by_contra hnot
      simp [hnot] at h
    · intro h
      simp [h]
  · simp only [controlStep, hmean]
    constructor
    · intro h
      by_contra hnot
      simp [hnot] at h
    · intro h
      simp [h]
  · intro h1 h2
    simp only [controlStep, hmean]
    have hno : ¬ (sp + hy < t) := not_lt.mpr h2
    have hnc : ¬ (t < sp - hy) := not_lt.mpr h1
    cases valve <;> simp [hno, hnc]

/-- C2 witness: with mean 25.9 the valve opens from CLOSED, with mean 24.3 it
closes from OPEN, and with mean 25.0 (dead-band) it stays OPEN. -/
theorem auto_hysteresis_transitions_witness :
    controlStep SETPOINT HYSTERESIS .AUTO .CLOSED [FVal.fin (259/10)] = .OPEN ∧
    controlStep SETPOINT HYSTERESIS .AUTO .OPEN [FVal.fin (243/10)] = .CLOSED ∧
    controlStep SETPOINT HYSTERESIS .AUTO .OPEN [FVal.fin 25] = .OPEN := by
  have hv : ∀ q : ℚ, validOf [FVal.fin q] = [q] := fun _ => rfl
  have hm : ∀ q : ℚ, controlMean [FVal.fin q] = some q := by
    intro q
    simp [controlMean, hv]
  refine ⟨?_, ?_, ?_⟩
  · exact (auto_hysteresis_transitions SETPOINT HYSTERESIS [FVal.fin (259/10)]
      (259/10) .CLOSED (hm _)).1.mpr (by norm_num [SETPOINT, HYSTERESIS])
  · exact (auto_hysteresis_transitions SETPOINT HYSTERESIS [FVal.fin (243/10)]
      (243/10) .OPEN (hm _)).2.1.mpr (by norm_num [SETPOINT, HYSTERESIS])
  · exact (auto_hysteresis_transitions SETPOINT HYSTERESIS [FVal.fin 25]
      25 .OPEN (hm _)).2.2 (by norm_num [SETPOINT, HYSTERESIS])
      (by norm_num [SETPOINT, HYSTERESIS])

/-- C3: a channel with a reported fault, a non-finite raw value, or a value
outside [-200,1370] is sanitized to NaN (an explicit no-value, never a
numeric sentinel), is rendered as null in telemetry, and contributes nothing
to the set of valid channels nor to the control mean; the control mean is
exactly the average of the valid channels. -/
theorem invalid_channel_excluded
    (c : RawChannel) (rest : List FVal)
    (hbad : c.fault ≠ 0 ∨ c.temp.isfinite = false ∨ outOfRange c.temp) :
    safeReadCelsius c = .nan ∧
    renderTemp (safeReadCelsius c) = none ∧
    validOf (safeReadCelsius c :: rest) = validOf rest ∧
    controlMean (safeReadCelsius c :: rest) = controlMean rest ∧
    (validOf rest ≠ [] →
      controlMean (safeReadCelsius c :: rest)
        = some ((validOf rest).sum / ((validOf rest).length : ℚ))) := by
  have hnan : safeReadCelsius c = .nan := by
    unfold safeReadCelsius
    rcases hbad with hf | hnf | hoor
    · cases hp : c.present <;> simp [hf]
    · cases hp : c.present
      · simp
      · cases ht : c.temp <;> simp_all [FVal.isfinite]
    · obtain ⟨q, hq, hout⟩ := hoor
      cases hp : c.present
      · simp
      · by_cases hf : c.fault = 0 <;> simp [hf, hq, hout]
  have hvalid : validOf (safeReadCelsius c :: rest) = validOf rest := by
    simp [validOf, hnan, FVal.toFinite]
  refine ⟨hnan, by simp [hnan, renderTemp], hvalid, ?_, ?_⟩
  · simp [controlMean, hvalid]
  · intro hne
    simp [controlMean, hvalid, List.length_pos.mpr hne]

/-- C3 witness: a faulted channel (fault byte 4, reading 20 C) next to one
valid 30 C channel: the reading is sanitized to NaN, rendered null, and the
control mean is 30. -/
theorem invalid_channel_excluded_witness :
    safeReadCelsius ⟨true, FVal.fin 20, 4⟩ = .nan ∧
    controlMean (safeReadCelsius ⟨true, FVal.fin 20, 4⟩ :: [FVal.fin 30])
      = some ((30 : ℚ) / 1) := by
  have h := invalid_channel_excluded ⟨true, FVal.fin 20, 4⟩ [FVal.fin 30]
    (Or.inl (by decide))
  refine ⟨h.1, ?_⟩
  have h5 := h.2.2.2.2 (by simp [validOf, FVal.toFinite])
  simpa [validOf, FVal.toFinite] using h5

-- ── FieldBusMaster: Modbus RTU CRC16 (modbusCRC) ──────────────────────────

/-- One inner iteration of `modbusCRC`: shift right, conditionally xor the
polynomial 0xA001 when the low bit was set. -/
def crcRound (crc : Nat) : Nat :=
  if crc &&& 1 = 1 then (crc >>> 1) ^^^ 0xA001 else crc >>> 1

/-- Processing one input byte of `modbusCRC`: xor the byte into the CRC
register, then run eight `crcRound` iterations. -/
def crcByte (crc b : Nat) : Nat :=
  crcRound^[8] (crc ^^^ b)

/-- `modbusCRC`: the table-free bit-shift Modbus CRC16, polynomial 0xA001,
seed 0xFFFF, over a byte sequence. -/
def modbusCRC (data : List Nat) : Nat :=
  data.foldl crcByte 0xFFFF

/-- The CRC validation performed on a received frame in `vfdReadM09toM12`:
the little-endian CRC transmitted in the last two bytes must equal the CRC
computed over all preceding bytes. -/
def crcFrameOk (buf : List Nat) : Bool :=
  let len := buf.length
  let crcResp := (buf.getD (len - 1) 0) <<< 8 ||| buf.getD (len - 2) 0
  let crcCalc := modbusCRC (buf.take (len - 2))
  crcResp == crcCalc

/-- Appending the computed CRC to a byte sequence, low byte first, exactly as
the request frame is built (`frame[6] = crc & 0xFF; frame[7] = crc >> 8`). -/
def appendCRC (data : List Nat) : List Nat :=
  let crc := modbusCRC data
  data ++ [crc &&& 0xFF, crc >>> 8]

/-- Flipping bit `j` of byte `i` of a frame. -/
def flipBit (l : List Nat) (i j : Nat) : List Nat :=
  l.set i ((l.getD i 0) ^^^ (1 <<< j))

theorem crcRound_lt (crc : Nat) (h : crc < 65536) : crcRound crc < 65536 := by
  unfold crcRound
  have h1 : crc >>> 1 < 65536 := by
    rw [Nat.shiftRight_eq_div_pow]
    omega
  split
  · have : (65536 : Nat) = 2 ^ 16 := by norm_num
    rw [this] at h1 ⊢
    exact Nat.xor_lt_two_pow h1 (by norm_num)
  · exact h1

theorem crcRound_inj (a b : Nat) (ha : a < 65536) (hb : b < 65536)
    (h : crcRound a = crcRound b) : a = b := by
  unfold crcRound at h
  rw [Nat.and_one_is_mod, Nat.and_one_is_mod] at h
  have hsa : a >>> 1 = a / 2 := by rw [Nat.shiftRight_eq_div_pow]
  have hsb : b >>> 1 = b / 2 := by rw [Nat.shiftRight_eq_div_pow]
  rw [hsa, hsb] at h
  have hxor_ge : ∀ x : Nat, x < 32768 → 32768 ≤ x ^^^ 40961 := by
    intro x hx
    have hbit : (x ^^^ 40961).testBit 15 = true := by
      rw [Nat.testBit_xor]
      have hx15 : x.testBit 15 = false :=
        Nat.testBit_lt_two_pow (lt_of_lt_of_le hx (by norm_num))
      rw [hx15]
      decide
    exact le_trans (by norm_num) (Nat.testBit_implies_ge hbit)
  by_cases pa : a % 2 = 1 <;> by_cases pb : b % 2 = 1
  · simp [pa, pb] at h
    have : a / 2 = b / 2 := by
      have h2 := congrArg (fun x => x ^^^ 40961) h
      simpa [Nat.xor_assoc] using h2
    omega
  · simp [pa, pb] at h
    have := hxor_ge (a / 2) (by omega)
    rw [h] at this
    omega
  · simp [pa, pb] at h
    have := hxor_ge (b / 2) (by omega)
    rw [← h] at this
    omega
  · simp [pa, pb] at h
    omega

theorem crcRound_iter_lt (n x : Nat) (hx : x < 65536) : crcRound^[n] x < 65536 := by
  induction n generalizing x with
  | zero => simpa using hx
  | succ k ih =>
    rw [Function.iterate_succ_apply]
    exact ih _ (crcRound_lt x hx)

theorem crcRound_iter_inj (n x y : Nat) (hx : x < 65536) (hy : y < 65536)
    (h : crcRound^[n] x = crcRound^[n] y) : x = y := by
  induction n generalizing x y with
  | zero => simpa using h
  | succ k ih =>
    rw [Function.iterate_succ_apply, Function.iterate_succ_apply] at h
    exact crcRound_inj x y hx hy
      (ih _ _ (crcRound_lt x hx) (crcRound_lt y hy) h)

theorem crcByte_lt (crc b : Nat) (hc : crc < 65536) (hb : b < 256) :
    crcByte crc b < 65536 := by
  unfold crcByte
  refine crcRound_iter_lt 8 _ ?_
  have : (65536 : Nat) = 2 ^ 16 := by norm_num
  rw [this] at hc ⊢
  exact Nat.xor_lt_two_pow hc (by omega)

theorem crcByte_inj_left (c1 c2 b : Nat) (h1 : c1 < 65536) (h2 : c2 < 65536)
    (hb : b < 256) (h : crcByte c1 b = crcByte c2 b) : c1 = c2 := by
  unfold crcByte at h
  have hxb : ∀ c : Nat, c < 65536 → c ^^^ b < 65536 := by
    intro c hc
    have e : (65536 : Nat) = 2 ^ 16 := by norm_num
    rw [e] at hc ⊢
    exact Nat.xor_lt_two_pow hc (by omega)
  have := crcRound_iter_inj 8 _ _ (hxb c1 h1) (hxb c2 h2) h
  have h3 := congrArg (fun x => x ^^^ b) this
  simpa [Nat.xor_assoc] using h3

theorem crcByte_inj_right (c b1 b2 : Nat) (hc : c < 65536) (hb1 : b1 < 65536)
    (hb2 : b2 < 65536) (h : crcByte c b1 = crcByte c b2) : b1 = b2 := by
  unfold crcByte at h
  have hxb : ∀ b : Nat, b < 65536 → c ^^^ b < 65536 := by
    intro b hb
    have e : (65536 : Nat) = 2 ^ 16 := by norm_num
    rw [e] at hc hb ⊢
    exact Nat.xor_lt_two_pow hc hb
  have := crcRound_iter_inj 8 _ _ (hxb b1 hb1) (hxb b2 hb2) h
  have h3 := congrArg (fun x => c ^^^ x) this
  simpa [← Nat.xor_assoc] using h3

theorem crc_foldl_lt (l : List Nat) : ∀ c : Nat, (∀ b ∈ l, b < 256) →
    c < 65536 → l.foldl crcByte c < 65536 := by
  induction l with
  | nil =>
    intro c _ hc
    simpa using hc
  | cons x xs ih =>
    intro c hl hc
    simp only [List.foldl_cons]
    exact ih _ (fun b hb => hl b (by simp [hb]))
      (crcByte_lt c x hc (hl x (by simp)))

theorem crc_foldl_inj (l : List Nat) : ∀ c1 c2 : Nat, (∀ b ∈ l, b < 256) →
    c1 < 65536 → c2 < 65536 →
    l.foldl crcByte c1 = l.foldl crcByte c2 → c1 = c2 := by
  induction l with
  | nil =>
    intro c1 c2 _ _ _ h
    simpa using h
  | cons x xs ih =>
    intro c1 c2 hl h1 h2 h
    simp only [List.foldl_cons] at h
    have hx : x < 256 := hl x (by simp)
    exact crcByte_inj_left c1 c2 x h1 h2 hx
      (ih _ _ (fun b hb => hl b (by simp [hb]))
        (crcByte_lt c1 x h1 hx) (crcByte_lt c2 x h2 hx) h)

theorem modbusCRC_lt (data : List Nat) (hd : ∀ b ∈ data, b < 256) :
    modbusCRC data < 65536 :=
  crc_foldl_lt data 0xFFFF hd (by norm_num)

/-- Changing one byte of the input changes the Modbus CRC. -/
theorem modbusCRC_byte_change (p s : List Nat) (b b' : Nat)
    (hp : ∀ x ∈ p, x < 256) (hs : ∀ x ∈ s, x < 256)
    (hb : b < 256) (hb' : b' < 256) (hne : b ≠ b') :
    modbusCRC (p ++ b :: s) ≠ modbusCRC (p ++ b' :: s) := by
  intro h
  unfold modbusCRC at h
  rw [List.foldl_append, List.foldl_append, List.foldl_cons, List.foldl_cons] at h
  have hc0 : p.foldl crcByte 0xFFFF < 65536 := crc_foldl_lt p _ hp (by norm_num)
  have hbc : crcByte (p.foldl crcByte 0xFFFF) b = crcByte (p.foldl crcByte 0xFFFF) b' :=
    crc_foldl_inj s _ _ hs
      (crcByte_lt _ b hc0 hb) (crcByte_lt _ b' hc0 hb') h
  exact hne (crcByte_inj_right _ b b' hc0 (by omega) (by omega) hbc)

theorem shiftLeft8_or_eq (x y : Nat) (hy : y < 256) :
    (x <<< 8) ||| y = 256 * x + y := by
  have h1 : x <<< 8 = 2 ^ 8 * x := by
    rw [Nat.shiftLeft_eq, Nat.mul_comm]
  have h2 := Nat.mul_add_lt_is_or (i := 8) (by omega : y < 2 ^ 8) x
  rw [h1, ← h2]

theorem shiftLeft8_or_shiftRight (x y : Nat) (hy : y < 256) :
    ((x <<< 8) ||| y) >>> 8 = x := by
  rw [shiftLeft8_or_eq x y hy, Nat.shiftRight_eq_div_pow]
  norm_num
  omega

theorem shiftLeft8_or_mask (x y : Nat) (hy : y < 256) :
    ((x <<< 8) ||| y) &&& 255 = y := by
  have h : (255 : Nat) = 2 ^ 8 - 1 := by norm_num
  rw [shiftLeft8_or_eq x y hy, h, Nat.and_pow_two_sub_one_eq_mod]
  norm_num
  omega

theorem shiftRight8_shiftLeft8_or_mask (c : Nat) :
    ((c >>> 8) <<< 8) ||| (c &&& 255) = c := by
  have hmask : c &&& 255 = c % 256 := by
    have h : (255 : Nat) = 2 ^ 8 - 1 := by norm_num
    rw [h, Nat.and_pow_two_sub_one_eq_mod]
  have hdiv : c >>> 8 = c / 256 := by
    rw [Nat.shiftRight_eq_div_pow]
  rw [hmask, hdiv, shiftLeft8_or_eq _ _ (by omega)]
  omega

-- ── Theorem: C4 ───────────────────────────────────────────────────────────

/-- C4: the field-bus CRC16 is self-consistent: for every byte sequence,
appending its computed CRC (low byte then high byte) and re-validating with
the receive-side check succeeds, while flipping any single bit anywhere in
the resulting frame, CRC bytes included, makes the validation fail. -/
theorem crc_self_consistent (data : List Nat) (hd : ∀ b ∈ data, b < 256) :
    crcFrameOk (appendCRC data) = true ∧
    ∀ i j, i < (appendCRC data).length → j < 8 →
      crcFrameOk (flipBit (appendCRC data) i j) = false := by
  set crc := modbusCRC data with hcrcdef
  have hcrc : crc < 65536 := modbusCRC_lt data hd
  set lo := crc &&& 255 with hlodef
  set hi := crc >>> 8 with hhidef
  have hlo : lo < 256 := by
    rw [hlodef]
    have h : (255 : Nat) = 2 ^ 8 - 1 := by norm_num
    rw [h, Nat.and_pow_two_sub_one_eq_mod]
    omega
  have hhi : hi < 256 := by
    rw [hhidef, Nat.shiftRight_eq_div_pow]
    omega
  have hframe : appendCRC data = data ++ [lo, hi] := rfl
  have hlen : (appendCRC data).length = data.length + 2 := by
    rw [hframe]
    simp
  have hsub2 : data.length + 2 - 2 = data.length := by omega
  have hsub1 : data.length + 2 - 1 = data.length + 1 := by omega
  have htake : (data ++ [lo, hi]).take data.length = data :=
    List.take_left' rfl
  have hgetlo : (data ++ [lo, hi]).getD data.length 0 = lo := by
    rw [List.getD_append_right data [lo, hi] 0 data.length (le_refl _)]
    simp
  have hgethi : (data ++ [lo, hi]).getD (data.length + 1) 0 = hi := by
    rw [List.getD_append_right data [lo, hi] 0 (data.length + 1) (by omega)]
    simp
  constructor
  · rw [hframe]
    unfold crcFrameOk
    simp only [List.length_append, List.length_cons, List.length_nil]
    rw [hsub2, hsub1, htake, hgetlo, hgethi, ← hcrcdef]
    rw [hlodef, hhidef, shiftRight8_shiftLeft8_or_mask]
    exact beq_self_eq_true crc
  · intro i j hi2 hj
    rw [hlen] at hi2
    have hmeq : (1 : Nat) <<< j = 2 ^ j := Nat.one_shiftLeft j
    have hm : (1 : Nat) <<< j < 256 := by
      rw [hmeq]
      calc 2 ^ j < 2 ^ 8 := Nat.pow_lt_pow_right (by norm_num) hj
        _ = 256 := by norm_num
    have hmne : (1 : Nat) <<< j ≠ 0 := by
      rw [hmeq]
      exact Nat.pos_iff_ne_zero.mp (Nat.pos_pow_of_pos j (by norm_num))
    have hxorne : ∀ b : Nat, b ^^^ (1 <<< j) ≠ b := by
      intro b he
      have h2 := congrArg (fun x => b ^^^ x) he
      simp only [← Nat.xor_assoc, Nat.xor_self, Nat.zero_xor] at h2
      exact hmne h2
    have hxorlt : ∀ b : Nat, b < 256 → b ^^^ (1 <<< j) < 256 := by
      intro b hb
      have e : (256 : Nat) = 2 ^ 8 := by norm_num
      rw [e] at hb hm ⊢
      exact Nat.xor_lt_two_pow hb hm
    rcases lt_trichotomy i data.length with hil | hil | hil
    · -- flip inside the data prefix: the computed CRC changes
      have hb : data.getD i 0 < 256 := by
        have : data.getD i 0 ∈ data := by
          rw [List.getD_eq_getElem?_getD, List.getElem?_eq_getElem hil]
          exact List.getElem_mem hil
        exact hd _ this
      have hget : (data ++ [lo, hi]).getD i 0 = data.getD i 0 :=
        List.getD_append data [lo, hi] 0 i hil
      have hsetl : flipBit (data ++ [lo, hi]) i j
          = data.set i (data.getD i 0 ^^^ (1 <<< j)) ++ [lo, hi] := by
        unfold flipBit
        rw [hget, List.set_append_left _ _ hil]
      rw [hframe, hsetl]
      unfold crcFrameOk
      simp only [List.length_append, List.length_cons, List.length_nil,
        List.length_set]
      have htake2 : (data.set i (data.getD i 0 ^^^ (1 <<< j)) ++ [lo, hi]).take
          (data.length) = data.set i (data.getD i 0 ^^^ (1 <<< j)) := by
        refine List.take_left' ?_
        simp
      have hgetlo2 : (data.set i (data.getD i 0 ^^^ (1 <<< j)) ++ [lo, hi]).getD
          data.length 0 = lo := by
        rw [List.getD_append_right _ [lo, hi] 0 data.length (by simp)]
        simp
      have hgethi2 : (data.set i (data.getD i 0 ^^^ (1 <<< j)) ++ [lo, hi]).getD
          (data.length + 1) 0 = hi := by
        rw [List.getD_append_right _ [lo, hi] 0 (data.length + 1) (by simp)]
        simp
      rw [hsub2, hsub1, htake2, hgetlo2, hgethi2]
      rw [hlodef, hhidef, shiftRight8_shiftLeft8_or_mask]
      refine beq_eq_false_iff_ne.mpr ?_
      intro heq
      have hdec : data = data.take i ++ data.getD i 0 :: data.drop (i + 1) := by
        conv_lhs => rw [← List.take_append_drop i data]
        rw [List.drop_eq_getElem_cons hil]
        rw [List.getD_eq_getElem?_getD, List.getElem?_eq_getElem hil]
        simp
      have hsetdec : data.set i (data.getD i 0 ^^^ (1 <<< j))
          = data.take i ++ (data.getD i 0 ^^^ (1 <<< j)) :: data.drop (i + 1) := by
        rw [List.getD_eq_getElem?_getD, List.getElem?_eq_getElem hil]
        simp only [Option.getD_some]
        exact List.set_eq_take_cons_drop _ hil
      have hchange := modbusCRC_byte_change (data.take i) (data.drop (i + 1))
        (data.getD i 0) (data.getD i 0 ^^^ (1 <<< j))
        (fun x hx => hd x (List.mem_of_mem_take hx))
        (fun x hx => hd x (List.mem_of_mem_drop hx))
        hb (hxorlt _ hb) (fun he => hxorne _ he.symm)
      rw [← hdec, ← hsetdec] at hchange
      rw [hcrcdef] at heq
      exact hchange heq
    · -- flip the transmitted CRC low byte
      have hget : (data ++ [lo, hi]).getD i 0 = lo := by
        rw [hil]
        exact hgetlo
      have hsetl : flipBit (data ++ [lo, hi]) i j
          = data ++ [lo ^^^ (1 <<< j), hi] := by
        unfold flipBit
        rw [hget, hil, List.set_append_right _ _ (le_refl _)]
        simp
      rw [hframe, hsetl]
      unfold crcFrameOk
      simp only [List.length_append, List.length_cons, List.length_nil]
      have htake2 : (data ++ [lo ^^^ (1 <<< j), hi]).take data.length = data :=
        List.take_left' rfl
      have hgetlo2 : (data ++ [lo ^^^ (1 <<< j), hi]).getD data.length 0
          = lo ^^^ (1 <<< j) := by
        rw [List.getD_append_right data _ 0 data.length (le_refl _)]
        simp
      have hgethi2 : (data ++ [lo ^^^ (1 <<< j), hi]).getD (data.length + 1) 0
          = hi := by
        rw [List.getD_append_right data _ 0 (data.length + 1) (by omega)]
        simp
      rw [hsub2, hsub1, htake2, hgetlo2, hgethi2, ← hcrcdef]
      refine beq_eq_false_iff_ne.mpr ?_
      intro heq
      have hmask := congrArg (fun x => x &&& 255) heq
      simp only at hmask
      rw [shiftLeft8_or_mask _ _ (hxorlt _ hlo)] at hmask
      rw [← hlodef] at hmask
      exact hxorne lo hmask
    · -- flip the transmitted CRC high byte
      have hieq : i = data.length + 1 := by omega
      have hget : (data ++ [lo, hi]).getD i 0 = hi := by
        rw [hieq]
        exact hgethi
      have hsetl : flipBit (data ++ [lo, hi]) i j
          = data ++ [lo, hi ^^^ (1 <<< j)] := by
        unfold flipBit
        rw [hget, hieq, List.set_append_right _ _ (by omega)]
        simp
      rw [hframe, hsetl]
      unfold crcFrameOk
      simp only [List.length_append, List.length_cons, List.length_nil]
      have htake2 : (data ++ [lo, hi ^^^ (1 <<< j)]).take data.length = data :=
        List.take_left' rfl
      have hgetlo2 : (data ++ [lo, hi ^^^ (1 <<< j)]).getD data.length 0
          = lo := by
        rw [List.getD_append_right data _ 0 data.length (le_refl _)]
        simp
      have hgethi2 : (data ++ [lo, hi ^^^ (1 <<< j)]).getD (data.length + 1) 0
          = hi ^^^ (1 <<< j) := by
        rw [List.getD_append_right data _ 0 (data.length + 1) (by omega)]
        simp
      rw [hsub2, hsub1, htake2, hgetlo2, hgethi2, ← hcrcdef]
      refine beq_eq_false_iff_ne.mpr ?_
      intro heq
      have hshift := congrArg (fun x => x >>> 8) heq
      simp only at hshift
      rw [shiftLeft8_or_shiftRight _ _ hlo] at hshift
      rw [← hhidef] at hshift
      exact hxorne hi hshift

/-- C4 witness: the concrete 6-byte VFD request body: appending its CRC
validates, and flipping bit 0 of the first byte fails validation. -/
theorem crc_self_consistent_witness :
    crcFrameOk (appendCRC [1, 3, 8, 9, 0, 4]) = true ∧
    crcFrameOk (flipBit (appendCRC [1, 3, 8, 9, 0, 4]) 0 0) = false := by
  have h := crc_self_consistent [1, 3, 8, 9, 0, 4] (by decide)
  exact ⟨h.1, h.2 0 0 (by decide) (by decide)⟩

-- ── FieldBusMaster: vfdReadM09toM12 / pollVfd ─────────────────────────────

/-- Firmware constant `VFD_SLAVE_ADDR` (y01). -/
def VFD_SLAVE_ADDR : Nat := 1

/-- Firmware constant `N_M_REG`: M09..M12 inclusive. -/
def N_M_REG : Nat := 4

/-- `expectedLen`: addr, func, byteCount, 2*N data bytes, 2 CRC bytes = 13. -/
def expectedLen : Nat := 3 + 2 * N_M_REG + 2

/-- The receive-side half of `vfdReadM09toM12`, applied to the accumulated
reply buffer: all four validation checks in source order (length, CRC,
address/function echo, byte-count field), then the big-endian decode of the
four registers (the `for i in 0..N_M_REG` loop, unrolled at `N_M_REG = 4`:
`vals[i] = buf[3+2i] << 8 | buf[4+2i]`). -/
def vfdReadM09toM12 (buf : List Nat) : Option (List Nat) :=
  let len := buf.length
  if len ≠ expectedLen then none
  else
    let crcResp := (buf.getD (len - 1) 0) <<< 8 ||| buf.getD (len - 2) 0
    let crcCalc := modbusCRC (buf.take (len - 2))
    if crcResp ≠ crcCalc then none
    else if buf.getD 0 0 ≠ VFD_SLAVE_ADDR ∨ buf.getD 1 0 ≠ 3 then none
    else if buf.getD 2 0 ≠ 2 * N_M_REG then none
    else some [(buf.getD 3 0) <<< 8 ||| buf.getD 4 0,
               (buf.getD 5 0) <<< 8 ||| buf.getD 6 0,
               (buf.getD 7 0) <<< 8 ||| buf.getD 8 0,
               (buf.getD 9 0) <<< 8 ||| buf.getD 10 0]

/-- The VFD status snapshot `g_vfd`. -/
structure VfdSnapshot where
  valid : Bool
  freqHz : FVal
  inputPowerPct : FVal
  outputCurrentPct : FVal
  outputVoltageV : FVal
  lastPollMs : Nat
deriving DecidableEq

/-- `pollVfd`: one poll of the drive given the accumulated reply bytes.  On
any failed transaction every numeric field is reset to NaN and `valid` is
cleared; on success the registers are decoded at the fixed scalings
(0.01 Hz, 0.01 %, 0.01 %, 0.1 V).  The prior snapshot `g` is passed only to
show the result never depends on it. -/
def pollVfd (g : VfdSnapshot) (nowMs : Nat) (reply : List Nat) : VfdSnapshot :=
  match vfdReadM09toM12 reply with
  | none =>
    { valid := false, freqHz := .nan, inputPowerPct := .nan,
      outputCurrentPct := .nan, outputVoltageV := .nan, lastPollMs := nowMs }
  | some vals =>
    { valid := true,
      freqHz := .fin ((vals.getD 0 0 : ℚ) / 100),
      inputPowerPct := .fin ((vals.getD 1 0 : ℚ) / 100),
      outputCurrentPct := .fin ((vals.getD 2 0 : ℚ) / 100),
      outputVoltageV := .fin ((vals.getD 3 0 : ℚ) * (1 / 10)),
      lastPollMs := nowMs }

-- ── Theorem: C5 ───────────────────────────────────────────────────────────

/-- C5: a field-bus transaction fails iff the reply length differs from 13,
or the CRC over all but the last two bytes differs from the transmitted CRC,
or the echoed address/function bytes mismatch the request, or the byte-count
field differs from 2 x register-count; on failure the snapshot is reset with
valid=false and every numeric field unknown (NaN), independently of the prior
snapshot; on success the registers are decoded big-endian at scalings /100,
/100, /100 and *0.1. -/
theorem vfd_poll_failure_and_decode (g : VfdSnapshot) (now : Nat)
    (reply : List Nat) :
    (vfdReadM09toM12 reply = none ↔
      (reply.length ≠ 13 ∨
       (reply.getD 12 0) <<< 8 ||| reply.getD 11 0 ≠ modbusCRC (reply.take 11) ∨
       reply.getD 0 0 ≠ 1 ∨ reply.getD 1 0 ≠ 3 ∨ reply.getD 2 0 ≠ 8)) ∧
    (vfdReadM09toM12 reply = none →
      pollVfd g now reply =
        { valid := false, freqHz := .nan, inputPowerPct := .nan,
          outputCurrentPct := .nan, outputVoltageV := .nan,
          lastPollMs := now }) ∧
    (vfdReadM09toM12 reply ≠ none →
      pollVfd g now reply =
        { valid := true,
          freqHz := .fin ((((reply.getD 3 0) <<< 8 ||| reply.getD 4 0 : ℕ) : ℚ) / 100),
          inputPowerPct := .fin ((((reply.getD 5 0) <<< 8 ||| reply.getD 6 0 : ℕ) : ℚ) / 100),
          outputCurrentPct := .fin ((((reply.getD 7 0) <<< 8 ||| reply.getD 8 0 : ℕ) : ℚ) / 100),
          outputVoltageV := .fin ((((reply.getD 9 0) <<< 8 ||| reply.getD 10 0 : ℕ) : ℚ) * (1 / 10)),
          lastPollMs := now }) := by
  have hmain : vfdReadM09toM12 reply = none ↔
      (reply.length ≠ 13 ∨
       (reply.getD 12 0) <<< 8 ||| reply.getD 11 0 ≠ modbusCRC (reply.take 11) ∨
       reply.getD 0 0 ≠ 1 ∨ reply.getD 1 0 ≠ 3 ∨ reply.getD 2 0 ≠ 8) := by
    by_cases h1 : reply.length = 13
    · simp only [vfdReadM09toM12, expectedLen, N_M_REG, VFD_SLAVE_ADDR, h1]
      norm_num
      tauto
    · simp only [vfdReadM09toM12, expectedLen, N_M_REG, h1]
      norm_num [h1]
  refine ⟨hmain, ?_, ?_⟩
  · intro hnone
    simp [pollVfd, hnone]
  · intro hsome
    have hpos := (not_iff_not.mpr hmain).mp hsome
    push_neg at hpos
    obtain ⟨h1, h2, h3, h4, h5⟩ := hpos
    have hv : vfdReadM09toM12 reply
        = some [(reply.getD 3 0) <<< 8 ||| reply.getD 4 0,
                (reply.getD 5 0) <<< 8 ||| reply.getD 6 0,
                (reply.getD 7 0) <<< 8 ||| reply.getD 8 0,
                (reply.getD 9 0) <<< 8 ||| reply.getD 10 0] := by
      simp only [List.getD_eq_getElem?_getD] at h2 h3 h4 h5
      simp only [vfdReadM09toM12, expectedLen, N_M_REG, VFD_SLAVE_ADDR, h1,
        List.getD_eq_getElem?_getD]
      norm_num [h2, h3, h4, h5]
    simp [pollVfd, hv]

set_option maxRecDepth 8192 in
/-- C5 witness: the empty reply fails and resets the snapshot; a concrete
valid 13-byte reply (a CRC-correct echo frame with all-zero registers)
decodes to a valid snapshot. -/
theorem vfd_poll_failure_and_decode_witness :
    (vfdReadM09toM12 [] = none ∧
      pollVfd ⟨true, .fin 5, .fin 5, .fin 5, .fin 5, 0⟩ 777 [] =
        { valid := false, freqHz := .nan, inputPowerPct := .nan,
          outputCurrentPct := .nan, outputVoltageV := .nan,
          lastPollMs := 777 }) ∧
    (vfdReadM09toM12 (appendCRC [1, 3, 8, 0, 0, 0, 0, 0, 0, 0, 0]) ≠ none ∧
      pollVfd ⟨false, .nan, .nan, .nan, .nan, 0⟩ 777
          (appendCRC [1, 3, 8, 0, 0, 0, 0, 0, 0, 0, 0]) =
        { valid := true,
          freqHz := .fin ((((appendCRC [1, 3, 8, 0, 0, 0, 0, 0, 0, 0, 0]).getD 3 0 <<< 8 |||
            (appendCRC [1, 3, 8, 0, 0, 0, 0, 0, 0, 0, 0]).getD 4 0 : ℕ) : ℚ) / 100),
          inputPowerPct := .fin ((((appendCRC [1, 3, 8, 0, 0, 0, 0, 0, 0, 0, 0]).getD 5 0 <<< 8 |||
            (appendCRC [1, 3, 8, 0, 0, 0, 0, 0, 0, 0, 0]).getD 6 0 : ℕ) : ℚ) / 100),
          outputCurrentPct := .fin ((((appendCRC [1, 3, 8, 0, 0, 0, 0, 0, 0, 0, 0]).getD 7 0 <<< 8 |||
            (appendCRC [1, 3, 8, 0, 0, 0, 0, 0, 0, 0, 0]).getD 8 0 : ℕ) : ℚ) / 100),
          outputVoltageV := .fin ((((appendCRC [1, 3, 8, 0, 0, 0, 0, 0, 0, 0, 0]).getD 9 0 <<< 8 |||
            (appendCRC [1, 3, 8, 0, 0, 0, 0, 0, 0, 0, 0]).getD 10 0 : ℕ) : ℚ) * (1 / 10)),
          lastPollMs := 777 }) := by
  constructor
  · exact ⟨by decide,
      (vfd_poll_failure_and_decode ⟨true, .fin 5, .fin 5, .fin 5, .fin 5, 0⟩
        777 []).2.1 (by decide)⟩
  · exact ⟨by decide,
      (vfd_poll_failure_and_decode ⟨false, .nan, .nan, .nan, .nan, 0⟩
        777 (appendCRC [1, 3, 8, 0, 0, 0, 0, 0, 0, 0, 0])).2.2 (by decide)⟩

-- ── PwmDriver: setDuty / setPumpCommandPct ────────────────────────────────

/-- Firmware constant `PUMP_CMD_MAX_PCT` (100 %). -/
def PUMP_CMD_MAX_PCT : ℚ := 100

/-- Firmware constant `PWM_TOP` (timer TOP = 999, 2 kHz carrier). -/
def PWM_TOP : Nat := 999

/-- Pump-command state: the stored command percent `g_pump_cmd_pct` and the
PWM compare register `OCR4A`. -/
structure PumpState where
  cmdPct : ℚ
  ocr4a : Nat
deriving DecidableEq

/-- `setDuty`: a non-finite fraction becomes 0, the fraction is clamped to
[0,1], and `OCR4A` is written with `uint16_t(frac * PWM_TOP + 0.5)` (the cast
truncates toward zero; the value is at most 999.5, so no 16-bit wrap). -/
def setDuty (s : PumpState) (frac : FVal) : PumpState :=
  let f0 : ℚ := match frac with
    | .fin q => q
    | _ => 0
  let f1 : ℚ := if f0 < 0 then 0 else f0
  let f2 : ℚ := if f1 > 1 then 1 else f1
  { s with ocr4a := (⌊f2 * (PWM_TOP : ℚ) + 1/2⌋).toNat }

/-- `setPumpCommandPct`: a non-finite percent becomes 0, the percent is
clamped to [0, PUMP_CMD_MAX_PCT], stored in `g_pump_cmd_pct`, converted to a
duty fraction `pct / 100` and applied with `setDuty`; the stored percent is
returned. -/
def setPumpCommandPct (s : PumpState) (pct : FVal) : ℚ × PumpState :=
  let p0 : ℚ := match pct with
    | .fin q => q
    | _ => 0
  let p1 : ℚ := if p0 < 0 then 0 else p0
  let p2 : ℚ := if p1 > PUMP_CMD_MAX_PCT then PUMP_CMD_MAX_PCT else p1
  let s1 : PumpState := { s with cmdPct := p2 }
  let s2 := setDuty s1 (.fin (p2 / 100))
  (s2.cmdPct, s2)

theorem setPumpCommandPct_fst (s : PumpState) (a : ℚ) :
    (setPumpCommandPct s (.fin a)).1
      = if a < 0 then 0 else if a > 100 then 100 else a := by
  unfold setPumpCommandPct setDuty PUMP_CMD_MAX_PCT
  by_cases h1 : a < 0
  · simp [h1]
  · simp [h1]

theorem setPumpCommandPct_eval (s : PumpState) (a : ℚ) :
    setPumpCommandPct s (.fin a)
      = ((setPumpCommandPct s (.fin a)).1,
         { cmdPct := (setPumpCommandPct s (.fin a)).1,
           ocr4a := (⌊(setPumpCommandPct s (.fin a)).1 / 100 * 999 + 1/2⌋).toNat }) := by
  have hfst := setPumpCommandPct_fst s a
  have hrange : 0 ≤ (setPumpCommandPct s (.fin a)).1 ∧
      (setPumpCommandPct s (.fin a)).1 ≤ 100 := by
    rw [hfst]
    split_ifs <;> constructor <;> linarith
  have hfr : ¬ ((setPumpCommandPct s (.fin a)).1 / 100 < 0) := by
    rcases hrange with ⟨h0, _⟩
    intro h
    nlinarith
  have hfr2 : ¬ ((setPumpCommandPct s (.fin a)).1 / 100 > 1) := by
    rcases hrange with ⟨_, h100⟩
    intro h
    nlinarith
  conv_lhs => rw [show setPumpCommandPct s (.fin a)
    = ((setPumpCommandPct s (.fin a)).1, (setPumpCommandPct s (.fin a)).2) from rfl]
  refine Prod.ext rfl ?_
  have hsnd : (setPumpCommandPct s (.fin a)).2
      = setDuty { s with cmdPct := (setPumpCommandPct s (.fin a)).1 }
          (.fin ((setPumpCommandPct s (.fin a)).1 / 100)) := by
    rw [setPumpCommandPct_fst]
    unfold setPumpCommandPct PUMP_CMD_MAX_PCT
    by_cases h1 : a < 0
    · simp [h1]
      norm_num
    · simp [h1]
  rw [hsnd]
  unfold setDuty
  simp only [hfr, hfr2, if_neg, if_false, PWM_TOP]
  rfl

theorem setPumpCommandPct_state_blind (s s' : PumpState) (v : FVal) :
    setPumpCommandPct s v = setPumpCommandPct s' v := rfl

-- ── Theorem: C6 ───────────────────────────────────────────────────────────

/-- C6: `setPumpCommandPct` clamps every finite requested percent into
[0,100] (values below 0 go to 0, above 100 go to 100, in-range values pass
through unchanged — no wrap, no error), is idempotent, and is monotone: a
larger request never yields a smaller applied percent or a smaller PWM
compare value; the applied duty fraction is exactly the clamped percent
divided by 100 (the inner [0,1] clamp of `setDuty` never alters it). -/
theorem pump_command_clamp_idem_mono (s s' : PumpState) (a b : ℚ) :
    (0 ≤ (setPumpCommandPct s (.fin a)).1 ∧ (setPumpCommandPct s (.fin a)).1 ≤ 100) ∧
    (a < 0 → (setPumpCommandPct s (.fin a)).1 = 0) ∧
    (100 < a → (setPumpCommandPct s (.fin a)).1 = 100) ∧
    (0 ≤ a → a ≤ 100 → (setPumpCommandPct s (.fin a)).1 = a) ∧
    setPumpCommandPct ((setPumpCommandPct s (.fin a)).2) (.fin a)
      = setPumpCommandPct s (.fin a) ∧
    (a ≤ b → (setPumpCommandPct s (.fin a)).1 ≤ (setPumpCommandPct s' (.fin b)).1 ∧
      ((setPumpCommandPct s (.fin a)).2).ocr4a ≤ ((setPumpCommandPct s' (.fin b)).2).ocr4a) ∧
    ((setPumpCommandPct s (.fin a)).2).cmdPct = (setPumpCommandPct s (.fin a)).1 ∧
    ((setPumpCommandPct s (.fin a)).2).ocr4a
      = (⌊(setPumpCommandPct s (.fin a)).1 / 100 * 999 + 1/2⌋).toNat := by
  have hfa := setPumpCommandPct_fst s a
  have hfb := setPumpCommandPct_fst s' b
  have hrange : ∀ (t : PumpState) (x : ℚ),
      0 ≤ (setPumpCommandPct t (.fin x)).1 ∧ (setPumpCommandPct t (.fin x)).1 ≤ 100 := by
    intro t x
    rw [setPumpCommandPct_fst]
    split_ifs <;> constructor <;> linarith
  have hmono_fst : a ≤ b →
      (setPumpCommandPct s (.fin a)).1 ≤ (setPumpCommandPct s' (.fin b)).1 := by
    intro hab
    rw [hfa, hfb]
    split_ifs <;> linarith
  refine ⟨hrange s a, ?_, ?_, ?_, ?_, ?_, ?_, ?_⟩
  · intro h
    rw [hfa]
    simp [h]
  · intro h
    rw [hfa]
    rw [if_neg (by linarith), if_pos h]
  · intro h0 h100
    rw [hfa]
    rw [if_neg (by linarith), if_neg (by linarith)]
  · rw [setPumpCommandPct_state_blind ((setPumpCommandPct s (.fin a)).2) s (.fin a)]
  · intro hab
    refine ⟨hmono_fst hab, ?_⟩
    rw [setPumpCommandPct_eval s a, setPumpCommandPct_eval s' b]
    simp only
    have hq : (setPumpCommandPct s (.fin a)).1 / 100 * 999 + 1/2
        ≤ (setPumpCommandPct s' (.fin b)).1 / 100 * 999 + 1/2 := by
      have := hmono_fst hab
      nlinarith
    exact Int.toNat_le_toNat (Int.floor_le_floor hq)
  · rw [setPumpCommandPct_eval s a]
  · rw [setPumpCommandPct_eval s a]

/-- C6 witness: request 150 % from a scratch state: applied percent is 100,
re-applying is idempotent, and 150 % from another state dominates 40 %. -/
theorem pump_command_clamp_idem_mono_witness :
    (setPumpCommandPct ⟨7, 3⟩ (.fin 150)).1 = 100 ∧
    (setPumpCommandPct ⟨7, 3⟩ (.fin 40)).1 = 40 ∧
    (setPumpCommandPct ⟨7, 3⟩ (.fin 40)).1 ≤ (setPumpCommandPct ⟨0, 0⟩ (.fin 150)).1 := by
  refine ⟨?_, ?_, ?_⟩
  · exact (pump_command_clamp_idem_mono ⟨7, 3⟩ ⟨0, 0⟩ 150 150).2.2.1 (by norm_num)
  · exact (pump_command_clamp_idem_mono ⟨7, 3⟩ ⟨0, 0⟩ 40 40).2.2.2.1
      (by norm_num) (by norm_num)
  · exact ((pump_command_clamp_idem_mono ⟨7, 3⟩ ⟨0, 0⟩ 40 150).2.2.2.2.2.1
      (by norm_num)).1

-- ── Theorem: C10 ──────────────────────────────────────────────────────────

/-- C10: every non-finite argument (NaN or either infinity) to
`setPumpCommandPct` is treated as 0: the stored percent becomes 0, the PWM
compare register becomes 0, and 0 is returned; `setDuty` independently maps a
non-finite fraction to compare value 0 as well. -/
theorem pump_nonfinite_is_zero (s : PumpState) (v : FVal)
    (hv : v.isfinite = false) :
    setPumpCommandPct s v = (0, { cmdPct := 0, ocr4a := 0 }) ∧
    setDuty s v = { s with ocr4a := 0 } := by
  have hfloor : (⌊(0 : ℚ) * (999 : ℚ) + 1/2⌋).toNat = 0 := by
    norm_num
  cases v with
  | fin q => simp [FVal.isfinite] at hv
  | nan =>
    constructor
    · unfold setPumpCommandPct setDuty PUMP_CMD_MAX_PCT PWM_TOP
      norm_num
    · unfold setDuty PWM_TOP
      norm_num
  | pinf =>
    constructor
    · unfold setPumpCommandPct setDuty PUMP_CMD_MAX_PCT PWM_TOP
      norm_num
    · unfold setDuty PWM_TOP
      norm_num
  | ninf =>
    constructor
    · unfold setPumpCommandPct setDuty PUMP_CMD_MAX_PCT PWM_TOP
      norm_num
    · unfold setDuty PWM_TOP
      norm_num

/-- C10 witness: NaN at a concrete nonzero state zeroes command and duty. -/
theorem pump_nonfinite_is_zero_witness :
    setPumpCommandPct ⟨55, 549⟩ FVal.nan = (0, { cmdPct := 0, ocr4a := 0 }) ∧
    setDuty ⟨55, 549⟩ FVal.nan = { cmdPct := 55, ocr4a := 0 } := by
  exact pump_nonfinite_is_zero ⟨55, 549⟩ FVal.nan (by decide)

-- ── CommandInterpreter: handleCommand ─────────────────────────────────────

/-- Firmware constant `PUMP_MAX_FREQ_HZ` (71.7 Hz at 100 %). -/
def PUMP_MAX_FREQ_HZ : ℚ := 717/10

/-- The command-visible controller state: override mode, valve, and pump
command. -/
structure CtrlState where
  mode : OverrideMode
  valve : ValveState
  pump : PumpState
deriving DecidableEq

/-- Model of C `isspace` (the classifier used by Arduino `String::trim` and
by `strtod`): space, \t, \n, \v (0x0B), \f (0x0C), \r. -/
def isSpaceC (c : Char) : Bool :=
  c == ' ' || c == '\t' || c == '\n' || c.toNat == 11 || c.toNat == 12 ||
    c == '\r'

/-- Model of Arduino `String::trim` (strip leading/trailing `isspace`
characters). -/
def strTrim (s : String) : String :=
  ⟨((s.toList.dropWhile isSpaceC).reverse.dropWhile isSpaceC).reverse⟩

/-- Model of Arduino `String::toUpperCase` (ASCII case fold). -/
def strUpper (s : String) : String :=
  ⟨s.toList.map Char.toUpper⟩

/-- Model of Arduino `String::startsWith`. -/
def strStartsWith (s p : String) : Bool :=
  s.toList.take p.toList.length == p.toList

/-- Model of Arduino `String::endsWith`. -/
def strEndsWith (s p : String) : Bool :=
  s.toList.drop (s.toList.length - p.toList.length) == p.toList

/-- Model of Arduino `String::substring(n)` (drop the first n characters). -/
def strDrop (s : String) (n : Nat) : String :=
  ⟨s.toList.drop n⟩

/-- Model of Arduino `String::remove(length()-1)` (drop the last character). -/
def strDropLast (s : String) : String :=
  ⟨s.toList.take (s.toList.length - 1)⟩

/-- Digit accumulator of the `atof` model. -/
def natOfDigits (cs : List Char) : Nat :=
  cs.foldl (fun a c => 10 * a + (c.toNat - 48)) 0

/-- Largest finite single-precision float value, 2^128 - 2^104: a parsed
magnitude beyond it overflows to infinity when `atof`'s double result is
converted to `float` by Arduino `String::toFloat`. -/
def FLT_MAX : ℚ := 340282346638528859811704183484516925440

/-- Model of the C library `atof`/`strtod` behind Arduino `String::toFloat`:
skip leading `isspace` characters, parse an optional sign, a decimal
significand with optional fractional part and optional exponent; recognize
"inf"/"infinity" and "nan" case-insensitively; return 0.0 when no conversion
is possible.  A finite parsed magnitude is kept exact as a rational, except
that a magnitude beyond `FLT_MAX` becomes the signed infinity produced by
the double-to-float conversion in `String::toFloat`. -/
def atofQ (s : String) : FVal :=
  let cs0 := s.toList.dropWhile isSpaceC
  let neg := cs0.head? = some '-'
  let cs1 := if cs0.head? = some '-' ∨ cs0.head? = some '+' then cs0.tail else cs0
  match cs1.map Char.toLower with
  | 'i' :: 'n' :: 'f' :: _ => if neg then .ninf else .pinf
  | 'n' :: 'a' :: 'n' :: _ => .nan
  | _ =>
    let intDigits := cs1.takeWhile Char.isDigit
    let rest1 := cs1.dropWhile Char.isDigit
    let fracDigits := if rest1.head? = some '.'
      then rest1.tail.takeWhile Char.isDigit else []
    let rest2 := if rest1.head? = some '.'
      then rest1.tail.dropWhile Char.isDigit else rest1
    if intDigits = [] ∧ fracDigits = [] then .fin 0
    else
      let mant : ℚ := (natOfDigits intDigits : ℚ)
        + (natOfDigits fracDigits : ℚ) / (10 : ℚ) ^ fracDigits.length
      let eexp : Int :=
        match rest2 with
        | c :: t =>
          if c = 'e' ∨ c = 'E' then
            let eneg := t.head? = some '-'
            let t1 := if t.head? = some '-' ∨ t.head? = some '+' then t.tail else t
            let ed := t1.takeWhile Char.isDigit
            if ed = [] then 0
            else if eneg then -(natOfDigits ed : Int) else (natOfDigits ed : Int)
          else 0
        | [] => 0
      let v := mant * (10 : ℚ) ^ eexp
      if v > FLT_MAX then (if neg then .ninf else .pinf)
      else .fin (if neg then -v else v)

/-- `handleCommand`: trim the line (empty lines are dropped), recognize the
three VALVE commands on the upper-cased text, or a PUMP command whose value
part is parsed as percent (with optional trailing `%`) or, after an `HZ`
keyword, as a frequency scaled by `100 / PUMP_MAX_FREQ_HZ`; a finite parsed
percent is applied via `setPumpCommandPct` and acknowledged on the serial
channel (the returned Bool); anything else leaves the state unchanged with no
output. -/
def handleCommand (st : CtrlState) (s : String) : CtrlState × Bool :=
  let cmd := strTrim s
  if cmd.length = 0 then (st, false)
  else
    let upper := strUpper cmd
    if upper = "VALVE OPEN" then
      ({ st with mode := .FORCE_OPEN, valve := .OPEN }, false)
    else if upper = "VALVE CLOSE" then
      ({ st with mode := .FORCE_CLOSE, valve := .CLOSED }, false)
    else if upper = "VALVE AUTO" then
      ({ st with mode := .AUTO }, false)
    else if strStartsWith upper "PUMP" then
      let rest := strTrim (strDrop cmd 4)
      let restUpper := strUpper rest
      let pct : FVal :=
        if strStartsWith restUpper "HZ" then
          match atofQ (strTrim (strDrop rest 2)) with
          | .fin hz =>
            if PUMP_MAX_FREQ_HZ > 0 then .fin (hz / PUMP_MAX_FREQ_HZ * 100)
            else .nan
          | _ => .nan
        else
          atofQ (if strEndsWith rest "%" then strDropLast rest else rest)
      match pct with
      | .fin q =>
        ({ st with pump := (setPumpCommandPct st.pump (.fin q)).2 }, true)
      | _ => (st, false)
    else (st, false)

-- ── Theorems: C7 (corrected) ──────────────────────────────────────────────

/-- C7 counterexample: the malformed command line "PUMP X" is not ignored:
its value text parses as 0 (atof semantics), so the pump command changes from
50 % to 0 % and an acknowledgment is printed. -/
theorem malformed_pump_not_ignored :
    handleCommand ⟨.AUTO, .CLOSED, ⟨50, 500⟩⟩ "PUMP X"
      = (⟨.AUTO, .CLOSED, ⟨0, 0⟩⟩, true) ∧
    handleCommand ⟨.AUTO, .CLOSED, ⟨50, 500⟩⟩ "PUMP X"
      ≠ (⟨.AUTO, .CLOSED, ⟨50, 500⟩⟩, false) := by
  have hx : atofQ (strTrim (strDrop (strTrim "PUMP X") 4)) = FVal.fin 0 := by
    decide
  have hpump : setPumpCommandPct ⟨50, 500⟩ (FVal.fin 0)
      = ((0 : ℚ), (⟨0, 0⟩ : PumpState)) := by
    have h1 := setPumpCommandPct_eval ⟨50, 500⟩ 0
    have h2 : (setPumpCommandPct (⟨50, 500⟩ : PumpState) (.fin 0)).1 = 0 := by
      rw [setPumpCommandPct_fst]
      norm_num
    rw [h2] at h1
    rw [h1]
    norm_num
  have hmain : handleCommand ⟨.AUTO, .CLOSED, ⟨50, 500⟩⟩ "PUMP X"
      = (⟨.AUTO, .CLOSED, ⟨0, 0⟩⟩, true) := by
    simp only [handleCommand]
    rw [if_neg (by decide), if_neg (by decide), if_neg (by decide),
      if_neg (by decide), if_pos (by decide), if_neg (by decide),
      if_neg (by decide), hx]
    simp only [hpump]
  refine ⟨hmain, ?_⟩
  rw [hmain]
  simp

/-- C7 (amended): every command line that, after trimming and upper-casing,
is none of the three VALVE commands and does not start with PUMP is silently
ignored: the state is returned unchanged and nothing is printed. -/
theorem unrecognized_command_ignored (st : CtrlState) (s : String)
    (h1 : strUpper (strTrim s) ≠ "VALVE OPEN")
    (h2 : strUpper (strTrim s) ≠ "VALVE CLOSE")
    (h3 : strUpper (strTrim s) ≠ "VALVE AUTO")
    (h4 : ¬ strStartsWith (strUpper (strTrim s)) "PUMP" = true) :
    handleCommand st s = (st, false) := by
  unfold handleCommand
  by_cases h0 : (strTrim s).length = 0
  · simp [h0]
  · simp [h0, h1, h2, h3, h4]

/-- C7 amended-claim witness: the unrecognized line "FROBNICATE" leaves a
concrete state untouched and prints nothing. -/
theorem unrecognized_command_ignored_witness :
    handleCommand ⟨.AUTO, .OPEN, ⟨50, 500⟩⟩ "FROBNICATE"
      = (⟨.AUTO, .OPEN, ⟨50, 500⟩⟩, false) :=
  unrecognized_command_ignored ⟨.AUTO, .OPEN, ⟨50, 500⟩⟩ "FROBNICATE"
    (by decide) (by decide) (by decide) (by decide)

-- ── Two-channel minimum-hold variant ──────────────────────────────────────

/-- IEEE-754 addition on embedded floats (NaN propagates; opposite
infinities give NaN). -/
def FVal.add : FVal → FVal → FVal
  | .fin a, .fin b => .fin (a + b)
  | .nan, _ => .nan
  | _, .nan => .nan
  | .pinf, .ninf => .nan
  | .ninf, .pinf => .nan
  | .pinf, _ => .pinf
  | _, .pinf => .pinf
  | .ninf, _ => .ninf
  | _, .ninf => .ninf

/-- Multiplication by the positive constant 0.5 (`0.5f * x`): halves a finite
value, fixes NaN and the infinities. -/
def FVal.half : FVal → FVal
  | .fin q => .fin (q / 2)
  | v => v

/-- IEEE-754 `<` on embedded floats: any comparison with NaN is false. -/
def FVal.flt : FVal → FVal → Bool
  | .nan, _ => false
  | _, .nan => false
  | .fin a, .fin b => a < b
  | .ninf, .ninf => false
  | .ninf, _ => true
  | _, .ninf => false
  | .pinf, _ => false
  | _, .pinf => true

/-- IEEE-754 `>` on embedded floats. -/
def FVal.fgt (a b : FVal) : Bool := FVal.flt b a

/-- `read_tc` of the two-channel variant: a reported fault yields NaN for
this cycle, otherwise the raw temperature is passed through. -/
def read_tc (fault : Nat) (t : FVal) : FVal :=
  if fault ≠ 0 then .nan else t

/-- `mean2`: the mean of the non-NaN readings (`0.5f * (a + b)`, a single
valid reading, or NaN when both are invalid). -/
def mean2 (a b : FVal) : FVal :=
  if !a.isnan && !b.isnan then (a.add b).half
  else if !a.isnan then a
  else if !b.isnan then b
  else .nan

/-- 32-bit unsigned subtraction `a - b` as computed on `unsigned long`
(`millis()` arithmetic). -/
def usub32 (a b : Nat) : Nat :=
  ((a % 4294967296) + 4294967296 - (b % 4294967296)) % 4294967296

/-- Control parameters of the two-channel variant: setpoint 23.0 C,
hysteresis 0.5 C, minimum valve hold 15000 ms. -/
def SETPOINT2 : ℚ := 23

/-- Firmware constant `MIN_VALVE_INTERVAL` (15 s). -/
def MIN_VALVE_INTERVAL : Nat := 15000

/-- Valve state plus the `lastValveChange` timestamp of the two-channel
minimum-hold variant. -/
structure HoldState where
  valve : ValveState
  lastValveChange : Nat
deriving DecidableEq

/-- One sampling tick of the two-channel variant's control block: hysteresis
on the mean of the two (fault-sanitized) readings, gated by the 15 s minimum
hold since the last valve change; each transition records the tick time. -/
def minHoldStep (st : HoldState) (now : Nat) (f1 : Nat) (t1 : FVal)
    (f2 : Nat) (t2 : FVal) : HoldState :=
  let r1 := read_tc f1 t1
  let r2 := read_tc f2 t2
  let t_avg := mean2 r1 r2
  if !t_avg.isnan && decide (usub32 now st.lastValveChange ≥ MIN_VALVE_INTERVAL) then
    if st.valve = .CLOSED ∧ t_avg.fgt (.fin (SETPOINT2 + HYSTERESIS)) then
      ⟨.OPEN, now⟩
    else if st.valve = .OPEN ∧ t_avg.flt (.fin (SETPOINT2 - HYSTERESIS)) then
      ⟨.CLOSED, now⟩
    else st
  else st

-- ── Theorem: C8 ───────────────────────────────────────────────────────────

/-- C8: in the minimum-hold variant a valve transition happens only when at
least `MIN_VALVE_INTERVAL` has elapsed since the last change — on every tick
inside the hold window the whole state is unchanged, no matter how far the
control mean is outside the dead-band — and every transition records the
tick as the new last-change time. -/
theorem min_hold_gates_transitions (st : HoldState) (now f1 f2 : Nat)
    (t1 t2 : FVal) :
    (usub32 now st.lastValveChange < MIN_VALVE_INTERVAL →
      minHoldStep st now f1 t1 f2 t2 = st) ∧
    ((minHoldStep st now f1 t1 f2 t2).valve ≠ st.valve →
      usub32 now st.lastValveChange ≥ MIN_VALVE_INTERVAL ∧
      (minHoldStep st now f1 t1 f2 t2).lastValveChange = now) := by
  constructor
  · intro hwin
    unfold minHoldStep
    have : ¬ (usub32 now st.lastValveChange ≥ MIN_VALVE_INTERVAL) := by omega
    simp [this]
  · intro hchange
    unfold minHoldStep at hchange ⊢
    dsimp only at hchange ⊢
    split_ifs at hchange ⊢ with hg h1 h2
    · simp only [Bool.and_eq_true, decide_eq_true_eq] at hg
      exact ⟨hg.2, rfl⟩
    · simp only [Bool.and_eq_true, decide_eq_true_eq] at hg
      exact ⟨hg.2, rfl⟩
    · exact absurd rfl hchange
    · exact absurd rfl hchange

/-- C8 witness: inside the hold window (5 s after a change) the valve stays
CLOSED despite a 30 C mean; outside it (20 s) with the same readings the
valve opens and the change time is recorded. -/
theorem min_hold_gates_transitions_witness :
    minHoldStep ⟨.CLOSED, 0⟩ 5000 0 (.fin 30) 0 (.fin 30) = ⟨.CLOSED, 0⟩ ∧
    (minHoldStep ⟨.CLOSED, 0⟩ 20000 0 (.fin 30) 0 (.fin 30)).valve = .OPEN ∧
    (minHoldStep ⟨.CLOSED, 0⟩ 20000 0 (.fin 30) 0 (.fin 30)).lastValveChange
      = 20000 := by
  refine ⟨(min_hold_gates_transitions ⟨.CLOSED, 0⟩ 5000 0 0 (.fin 30)
      (.fin 30)).1 (by decide), ?_, ?_⟩
  · have hstep : minHoldStep ⟨.CLOSED, 0⟩ 20000 0 (.fin 30) 0 (.fin 30)
        = ⟨.OPEN, 20000⟩ := by
      unfold minHoldStep read_tc mean2
      norm_num [FVal.isnan, FVal.add, FVal.half, FVal.fgt, FVal.flt,
        usub32, MIN_VALVE_INTERVAL, SETPOINT2, HYSTERESIS]
    rw [hstep]
  · have h2 := (min_hold_gates_transitions ⟨.CLOSED, 0⟩ 20000 0 0 (.fin 30)
      (.fin 30)).2
    have hstep : minHoldStep ⟨.CLOSED, 0⟩ 20000 0 (.fin 30) 0 (.fin 30)
        = ⟨.OPEN, 20000⟩ := by
      unfold minHoldStep read_tc mean2
      norm_num [FVal.isnan, FVal.add, FVal.half, FVal.fgt, FVal.flt,
        usub32, MIN_VALVE_INTERVAL, SETPOINT2, HYSTERESIS]
    exact (h2 (by rw [hstep]; decide)).2

-- ── FieldBusMaster: the bounded reply-accumulation loop ───────────────────

/-- Trace model of the reply-accumulation `while` loop of
`vfdReadM09toM12`: each loop iteration observes the current `millis()` value
and at most one available inbound byte; the loop continues only while the
elapsed time (32-bit unsigned `now - start`) is below 200 ms and fewer than
`expectedLen` bytes have been stored, appending the byte when one is
available. -/
def accumulate (start : Nat) (sched : List (Nat × Option Nat))
    (buf : List Nat) : List Nat :=
  match sched with
  | [] => buf
  | (now, avail) :: rest =>
    if usub32 now start < 200 ∧ buf.length < expectedLen then
      match avail with
      | some b => accumulate start rest (buf ++ [b])
      | none => accumulate start rest buf
    else buf

-- ── Theorem: C9 ───────────────────────────────────────────────────────────

/-- C9: the reply accumulation is bounded: for every pattern of byte
arrivals it never stores more than the expected 13 bytes, it stops as soon as
13 bytes have been received, and at the first loop iteration observing 200 ms
or more of elapsed time it stops immediately regardless of link state. -/
theorem accumulate_bounded (start now : Nat) (a : Option Nat)
    (sched rest : List (Nat × Option Nat)) (buf : List Nat) :
    (accumulate start sched []).length ≤ expectedLen ∧
    (buf.length ≥ expectedLen → accumulate start sched buf = buf) ∧
    (usub32 now start ≥ 200 → accumulate start ((now, a) :: rest) buf = buf) := by
  have hlen : ∀ (sch : List (Nat × Option Nat)) (b : List Nat),
      b.length ≤ expectedLen → (accumulate start sch b).length ≤ expectedLen := by
    intro sch
    induction sch with
    | nil =>
      intro b hb
      simpa [accumulate] using hb
    | cons p rest ih =>
      intro b hb
      rcases p with ⟨n, av⟩
      unfold accumulate
      by_cases hg : usub32 n start < 200 ∧ b.length < expectedLen
      · rcases av with _ | x
        · simp only [hg, if_pos, and_self]
          exact ih b hb
        · simp only [hg, if_pos, and_self]
          refine ih (b ++ [x]) ?_
          have := hg.2
          simp only [List.length_append, List.length_cons, List.length_nil]
          omega
      · simp [hg]
        exact hb
  refine ⟨hlen sched [] (by simp [expectedLen, N_M_REG]), ?_, ?_⟩
  · intro hfull
    cases sched with
    | nil => rfl
    | cons p rest2 =>
      rcases p with ⟨n, av⟩
      unfold accumulate
      rw [if_neg (by omega)]
  · intro htime
    unfold accumulate
    rw [if_neg (by omega)]

/-- C9 witness: a schedule that still offers bytes at 250 ms elapsed stores
nothing from that point on, and a full 13-byte buffer absorbs nothing. -/
theorem accumulate_bounded_witness :
    accumulate 0 [(250, some 7)] [1, 2] = [1, 2] ∧
    accumulate 0 [(10, some 7)] [0, 0, 0, 0, 0, 0, 0, 0, 0, 0, 0, 0, 9]
      = [0, 0, 0, 0, 0, 0, 0, 0, 0, 0, 0, 0, 9] := by
  constructor
  · exact (accumulate_bounded 0 250 (some 7) [(250, some 7)] [] [1, 2]).2.2
      (by decide)
  · exact (accumulate_bounded 0 10 (some 7) [(10, some 7)] []
      [0, 0, 0, 0, 0, 0, 0, 0, 0, 0, 0, 0, 9]).2.1 (by decide)

end Hfe
